import Mathlib

/-! Verification of the RAG / ReAct agent demo scripts.

Shallow embedding of the repository sources:

* `langchainRAG.py` — multi-turn RAG pipeline: `load_documents`,
  `build_vector_store` (Chroma Cloud, delete-before-rebuild),
  `build_rag_chain` (prompt assembly with an in-memory chat history),
  and the interactive `__main__` loop that appends to memory.
* `langchain(pinecone).py` — single-turn RAG pipeline whose index build
  creates the Pinecone index only when missing and then adds chunks.
* `Bitcoin_predictor_Agent(ReAct).py` — the `btc_to_inr` tool.
* `Movie_Scrapper_bot/webScrapper_chatbot.py` — the TMDb movie tools
  `get_now_playing_tmdb`, `get_now_playing` and `find_movie_in_city`.

External services (LLM, embedding model, vector index, HTTP endpoints) are
modelled as explicit function parameters; Python machine floats are modelled
as exact rationals; Python strings are modelled as `String` / `List Char`.
-/

/-! ### Chat messages and conversation memory (`langchainRAG.py`) -/

/-- A chat message: `HumanMessage` or `AIMessage` from
`langchain_core.messages`, as stored in `InMemoryChatMessageHistory`. -/
inductive Message where
  | human (content : String)
  | ai (content : String)
  deriving DecidableEq

/-- Python `str.lower()`, modelled character-wise (the repository only ever
lowercases ASCII command words and movie titles). -/
def pyLower (s : String) : String := String.mk (s.toList.map Char.toLower)

/-- The chat-history rendering in `build_rag_chain`:
`"\n".join([f"Human: {m.content}" if isinstance(m, HumanMessage) else
f"AI: {m.content}" for m in chat_history.messages])`. -/
def renderChatHistory (msgs : List Message) : String :=
  String.intercalate ("\n") (msgs.map fun m =>
    match m with
    | .human c => ("Human: ") ++ c
    | .ai c => ("AI: ") ++ c)

/-- The mapping produced by the first stage of `rag_chain` in
`build_rag_chain`: keys `context`, `question` and `chat_history`. -/
structure ChainInput where
  context : String
  question : String
  chat_history : String

/-- `PromptTemplate.format` for the template of `build_rag_chain`.  The
template declares `input_variables=["context", "question"]` and contains
placeholders for exactly those two keys; the `chat_history` entry of the
input mapping has no placeholder in the template string, so Python
`str.format` drops it (extra keyword arguments are ignored). -/
def ragTemplateFormat (x : ChainInput) : String :=
  ("You are an expert assistant. Use ONLY the following context to answer.\n") ++
  ("If the answer is not in the context, say: ") ++
  ("\"I could not find the answer in the document.\"\n\n") ++
  ("Context:\n") ++ x.context ++ ("\n\nQuestion:\n") ++ x.question ++ ("\n\nAnswer:")

/-- The prompt string assembled by one invocation of `rag_chain`:
`retrieved` is the string rendering of the retriever output filling the
`context` slot, `question` is the string rendering filling the `question`
slot, and `history` is the memory snapshot `chat_history.messages` at
invocation time. -/
def ragChainPrompt (retrieved question : String) (history : List Message) : String :=
  ragTemplateFormat
    { context := retrieved, question := question,
      chat_history := renderChatHistory history }

/-! ### The interactive session loop of `langchainRAG.py` (`__main__`) -/

/-- Outcome of one `rag_chain.invoke` call: the generated answer, or an
exception raised by the LLM call. -/
inductive GenOutcome where
  | success (answer : String)
  | failure
  deriving DecidableEq

/-- One turn offered to the interactive loop: the line typed by the user and
the outcome generation would have if reached. -/
structure LoopEvent where
  input : String
  gen : GenOutcome
  deriving DecidableEq

/-- Control state of the interactive session: the loop is running
(`ready`), was left via `exit`/`quit` (`exited`), or was torn down by an
uncaught exception from `rag_chain.invoke` (`crashed`). -/
inductive SessionStatus where
  | ready
  | exited
  | crashed
  deriving DecidableEq

/-- State of one interactive session: the `InMemoryChatMessageHistory`
contents and the control state of the loop. -/
structure SessionState where
  memory : List Message
  status : SessionStatus
  deriving DecidableEq

/-- The loop guard `query.lower() in ["exit", "quit"]`. -/
def isExitInput (q : String) : Bool :=
  (["exit", "quit"]).contains (pyLower q)

/-- One iteration of the `while True` loop of `langchainRAG.py`: check the
exit guard, invoke the chain, and on success append `HumanMessage(query)`
then `AIMessage(result)` to memory.  An exception from `invoke` is not
caught anywhere, so it terminates the whole process (`crashed`); a session
that is not `ready` processes no further input. -/
def loopStep (st : SessionState) (ev : LoopEvent) : SessionState :=
  match st.status with
  | .ready =>
      if isExitInput ev.input then { st with status := .exited }
      else
        match ev.gen with
        | .failure => { st with status := .crashed }
        | .success ans =>
            { memory := st.memory ++ [.human ev.input, .ai ans],
              status := .ready }
  | _ => st

/-- Session start: empty `InMemoryChatMessageHistory`, loop running. -/
def initialSession : SessionState := { memory := [], status := .ready }

/-- Run the interactive loop on a whole list of turns. -/
def runSession (events : List LoopEvent) : SessionState :=
  events.foldl loopStep initialSession

/-- Checks that a message list is a chronological alternation of
question/answer pairs: human, then ai, repeated. -/
def alternatesQA : List Message → Bool
  | [] => true
  | .human _ :: .ai _ :: rest => alternatesQA rest
  | _ => false

/-- The list of loop events in which every question generates successfully. -/
def successEvents (pairs : List (String × String)) : List LoopEvent :=
  pairs.map fun p => { input := p.1, gen := .success p.2 }

/-- The memory contents expected after the given question/answer pairs all
completed: question then answer, in order, per pair. -/
def memoryOfPairs (pairs : List (String × String)) : List Message :=
  pairs.flatMap fun p => [.human p.1, .ai p.2]

/-- Claim C4 packaged: after `N` successful queries the session is still
ready and its memory snapshot is exactly the `2N` turns, question before
answer, in chronological order, alternating user/assistant. -/
def MemoryInvariant (pairs : List (String × String)) : Prop :=
  (runSession (successEvents pairs)).status = .ready ∧
  (runSession (successEvents pairs)).memory = memoryOfPairs pairs ∧
  (runSession (successEvents pairs)).memory.length = 2 * pairs.length ∧
  alternatesQA (runSession (successEvents pairs)).memory = true

/-! ### Document loading (`load_documents` in `langchainRAG.py`) -/

/-- Python truthiness of the `path` argument (`if path and ...`): `None`
and the empty string are falsy. -/
def pyTruthyPath : Option String → Bool
  | none => false
  | some s => !s.isEmpty

/-- The condition of the first branch of `load_documents`:
`path and os.path.exists(path)`. -/
def validLocalPath (fsExists : String → Bool) (path : Option String) : Bool :=
  pyTruthyPath path && fsExists (path.getD (""))

/-- `load_documents` of `langchainRAG.py`.  The filesystem and the three
loaders (`DirectoryLoader` over pdf, `DirectoryLoader` over txt,
`WebBaseLoader` per url) are parameters; documents are their contents.
`.error` models the raised `ValueError` (the `ConfigurationError` of the
spec taxonomy). -/
def load_documents (fsExists : String → Bool)
    (pdfLoad txtLoad webLoad : String → List String)
    (path : Option String) (urls : List String) : Except String (List String) :=
  if pyTruthyPath path && fsExists (path.getD ("")) then
    .ok (pdfLoad (path.getD ("")) ++ txtLoad (path.getD ("")))
  else if !urls.isEmpty then
    .ok (urls.flatMap webLoad)
  else
    .error ("Provide either a valid local path or URLs list.")

/-! ### Vector store builds -/

/-- A vector index service: named collections, each holding a list of
entries (one entry per embedded chunk, identified here by its text). -/
abbrev VectorStore := List (String × List String)

/-- `client.list_collections()` (names only). -/
def collectionNames (store : VectorStore) : List String := store.map Prod.fst

/-- `client.delete_collection(name)`. -/
def delete_collection (store : VectorStore) (name : String) : VectorStore :=
  store.filter fun p => p.1 ≠ name

/-- `from_documents`: add one entry per chunk into the named collection,
creating the collection when it does not exist yet (get-or-create, as both
`Chroma.from_documents` and `PineconeVectorStore.from_documents` do). -/
def add_documents (store : VectorStore) (name : String) (chunks : List String) :
    VectorStore :=
  if name ∈ collectionNames store then
    store.map fun p => if p.1 = name then (p.1, p.2 ++ chunks) else p
  else store ++ [(name, chunks)]

/-- `build_vector_store` of `langchainRAG.py` (state transition on the
vector index service): if a collection named `Langchain_store` exists it is
deleted, then `Chroma.from_documents` repopulates it with the chunks split
from the source documents.  `chunks` stands for
`split_documents(load_documents(path))`, which is a fixed list for a fixed
source. -/
def build_vector_store (store : VectorStore) (chunks : List String) : VectorStore :=
  let store1 :=
    if ("Langchain_store") ∈ collectionNames store then
      delete_collection store ("Langchain_store")
    else store
  add_documents store1 ("Langchain_store") chunks

/-- The index build of `langchain(pinecone).py`: `pc.create_index` runs only
when `INDEX_NAME` is not among `pc.list_indexes()`; no deletion happens. -/
def create_index_if_missing (store : VectorStore) (name : String) : VectorStore :=
  if name ∈ collectionNames store then store else store ++ [(name, [])]

/-- The whole build phase of `langchain(pinecone).py`: create-if-missing,
then `PineconeVectorStore.from_documents` adds the chunks (fresh ids, no
deletion of existing vectors). -/
def pinecone_build (store : VectorStore) (name : String) (chunks : List String) :
    VectorStore :=
  add_documents (create_index_if_missing store name) name chunks

/-- All live entries stored under a collection name (flattened across all
generations of that name, so duplicates are visible). -/
def entriesOf (store : VectorStore) (name : String) : List String :=
  ((store.filter fun p => p.1 = name).map Prod.snd).flatten

/-- Number of live generations (collections) carrying a name. -/
def generationsOf (store : VectorStore) (name : String) : Nat :=
  (store.filter fun p => p.1 = name).length

/-! ### Chunker, modelled from the spec.

The chunking algorithm itself is implemented by the external
`langchain_text_splitters.RecursiveCharacterTextSplitter`; the repository
only passes `(chunk_size, chunk_overlap)` to it (`split_documents` in
`langchainRAG.py`, `text_splitter` in `langchain(pinecone).py`). -/

/-- Modelled from the spec: the distance between the starts of successive
chunks — "Each successive chunk starts `max_size − overlap` characters
after the previous chunk's start" (spec §4.1); the splitter implementation
is not part of the repository. -/
def chunkStep (max_size overlap : Nat) : Nat := max_size - overlap

/-- Modelled from the spec: how many chunks a document of length `L`
yields with the given window and step — one chunk for a short document
("a document shorter than `max_size` yields exactly one chunk"), otherwise
enough starts for the last window to reach the end of the document. -/
def numChunks (L max_size step : Nat) : Nat :=
  if L ≤ max_size then 1 else 1 + (L - max_size + step - 1) / step

/-- Modelled from the spec: the chunk of width `max_size` beginning at
position `p` of the document text. -/
def chunkAt (text : List Char) (max_size p : Nat) : List Char :=
  (text.drop p).take max_size

/-- Modelled from the spec: the ordered chunk list of one document, each
chunk paired with its start position. -/
def chunkDocument (text : List Char) (max_size overlap : Nat) :
    List (Nat × List Char) :=
  (List.range (numChunks text.length max_size (chunkStep max_size overlap))).map
    fun i => (i * chunkStep max_size overlap,
              chunkAt text max_size (i * chunkStep max_size overlap))

/-- Claim C5 packaged: every character position of the document lies in at
least one produced chunk; no chunk exceeds `max_size` characters; each
chunk overlaps the next one in exactly `overlap` characters. -/
def ChunkerSound (text : List Char) (max_size overlap : Nat) : Prop :=
  (∀ pos, pos < text.length →
      ∃ pc ∈ chunkDocument text max_size overlap,
        pc.1 ≤ pos ∧ pos < pc.1 + pc.2.length) ∧
  (∀ pc ∈ chunkDocument text max_size overlap, pc.2.length ≤ max_size) ∧
  (∀ i, i + 1 < (chunkDocument text max_size overlap).length →
      (chunkAt text max_size (i * chunkStep max_size overlap)).drop
          (chunkStep max_size overlap) =
        (chunkAt text max_size ((i + 1) * chunkStep max_size overlap)).take overlap ∧
      ((chunkAt text max_size (i * chunkStep max_size overlap)).drop
          (chunkStep max_size overlap)).length = overlap)

/-! ### Per-document read failures, modelled from the spec.

The directory traversal and per-file reads are implemented by the external
`langchain_community.DirectoryLoader` / `WebBaseLoader`; `load_documents`
only calls their `load()`. -/

/-- Outcome of reading one document of an ingestion batch. -/
inductive ReadResult where
  | ok (doc : String)
  | failed (err : String)
  deriving DecidableEq

/-- Modelled from the spec: "Failure to read any one document is logged and
that document is skipped; it must not abort the whole ingestion batch"
(spec §6, Document source); the loader implementation is not part of the
repository. -/
def loadBatch : List ReadResult → List String
  | [] => []
  | .ok d :: rest => d :: loadBatch rest
  | .failed _ :: rest => loadBatch rest

/-! ### The `btc_to_inr` tool (`Bitcoin_predictor_Agent(ReAct).py`) -/

/-- The fixed conversion constant of `btc_to_inr`:
`conversion_rate = 83.1`. -/
def conversion_rate : ℚ := 831 / 10

/-- Round a rational to the nearest integer, ties to even — the rounding
Python applies when formatting a value with `:.2f`-style precision (here
used on the value scaled to cents). -/
def roundHalfEven (q : ℚ) : ℤ :=
  let n := ⌊q⌋
  let r := q - n
  if r < 1 / 2 then n
  else if 1 / 2 < r then n + 1
  else if n % 2 = 0 then n else n + 1

/-- Decimal digits of a natural number, least significant first (`fuel`
bounds the recursion and any `fuel ≥ n` is enough). -/
def digitsRevAux : Nat → Nat → List Nat
  | 0, _ => []
  | fuel + 1, n => if n = 0 then [] else n % 10 :: digitsRevAux fuel (n / 10)

/-- The numeric value of a least-significant-first digit list. -/
def valRev : List Nat → Nat
  | [] => 0
  | d :: ds => d + 10 * valRev ds

/-- The usual decimal rendering of a natural number, as characters. -/
def digitsStr (n : Nat) : List Char :=
  if n = 0 then [('0')] else ((digitsRevAux n n).map Nat.digitChar).reverse

/-- Insert a comma after every three characters, scanning left to right
(`fuel` bounds the recursion and any `fuel ≥ length` is enough). -/
def group3Aux : Nat → List Char → List Char
  | 0, cs => cs
  | fuel + 1, cs =>
      if cs.length ≤ 3 then cs
      else cs.take 3 ++ ',' :: group3Aux fuel (cs.drop 3)

/-- Comma grouping of a digit string as Python `format(..., ",")` renders
it: thousands separators every three digits counted from the right. -/
def commaGroup (ds : List Char) : List Char :=
  (group3Aux ds.reverse.length ds.reverse).reverse

/-- Python `f"{v:,.2f}"` on the value `v`, modelled on exact rationals:
sign, comma-grouped integer part of the value rounded to cents, a point,
and exactly two fractional digits. -/
def pyFormatComma2 (q : ℚ) : List Char :=
  let cents := (roundHalfEven (q * 100)).natAbs
  let sign : List Char := if q < 0 then [('-')] else []
  sign ++ commaGroup (digitsStr (cents / 100)) ++
    '.' :: [Nat.digitChar (cents / 10 % 10), Nat.digitChar (cents % 10)]

/-- The `btc_to_inr` tool: `f"₹{usd_price * conversion_rate:,.2f} INR"`
with the fixed constant `conversion_rate = 83.1`; nothing here consults a
forex API. -/
def btc_to_inr (usd_price : ℚ) : String :=
  String.mk ('₹' :: pyFormatComma2 (usd_price * conversion_rate) ++ (" INR").toList)

/-- Numeric value of a digit character. -/
def charVal (c : Char) : Nat := c.toNat - 48

/-- Read a most-significant-first digit string back into a number. -/
def charsToNat (cs : List Char) : Nat :=
  cs.foldl (fun a c => 10 * a + charVal c) 0

/-- Remove thousands separators. -/
def stripCommas (cs : List Char) : List Char := cs.filter fun c => c ≠ ','

/-- Claim C8 packaged: the tool output is the rupee sign, then the
comma-grouped two-decimal rendering of `usd_price * 83.1` rounded to cents,
then the literal suffix; removing the separators from the integer part and
reading it back recovers exactly the rounded value. -/
def BtcFormatOK (p : ℚ) : Prop :=
  ∃ ip fr : Nat, fr < 100 ∧
    ((ip : ℤ) * 100 + fr) = roundHalfEven (p * conversion_rate * 100) ∧
    btc_to_inr p = String.mk ('₹' :: (commaGroup (digitsStr ip) ++
      '.' :: [Nat.digitChar (fr / 10), Nat.digitChar (fr % 10)] ++ (" INR").toList)) ∧
    charsToNat (stripCommas (commaGroup (digitsStr ip))) = ip

/-! ### TMDb movie tools (`Movie_Scrapper_bot/webScrapper_chatbot.py`) -/

/-- A movie record as `get_now_playing_tmdb` builds it from a TMDb result
item (the fields the tools read downstream). -/
structure Movie where
  title : String
  release_date : String
  overview : String
  deriving DecidableEq

/-- One TMDb `now_playing` page response: HTTP status code, the parsed
`results` items, and the reported `total_pages`. -/
structure TmdbPage where
  status : Nat
  results : List Movie
  total_pages : Nat
  deriving DecidableEq

/-- `get_now_playing_tmdb`: `for page in range(1, 3)` — fetch page 1 and
(sometimes) page 2; a non-200 response breaks out of the loop with the
results gathered so far; reaching `total_pages` also stops. -/
def get_now_playing_tmdb (fetchPage : Nat → TmdbPage) : List Movie :=
  let r1 := fetchPage 1
  if r1.status ≠ 200 then []
  else if 1 ≥ r1.total_pages then r1.results
  else
    let r2 := fetchPage 2
    if r2.status ≠ 200 then r1.results
    else r1.results ++ r2.results

/-- The `get_now_playing` tool: `json.dumps(get_now_playing_tmdb(region)[:10])`
— the serialized JSON array holds the first at most 10 movies. -/
def get_now_playing (fetchPage : Nat → TmdbPage) : List Movie :=
  (get_now_playing_tmdb fetchPage).take 10

/-- A theater record as `get_theaters_open` builds it (only `name` is read
by `find_movie_in_city`). -/
structure Theater where
  name : String
  deriving DecidableEq

/-- The `likely_theaters` field of the combined response: a list of up to 8
theater names, or the literal fallback string when the city lookup gave no
theaters. -/
inductive LikelyTheaters where
  | names (l : List String)
  | noData (msg : String)
  deriving DecidableEq

/-- The combined response object of `find_movie_in_city` in the found case. -/
structure FoundMovie where
  movie : String
  release_date : String
  overview : String
  city : String
  likely_theaters : LikelyTheaters
  deriving DecidableEq

/-- Result of the `find_movie_in_city` tool (the JSON payload it
serializes). -/
inductive FindCityResult where
  | notFound (message : String)
  | found (r : FoundMovie)
  deriving DecidableEq

/-- The match test of `find_movie_in_city`:
`movie_title.lower() in m["title"].lower()` — case-insensitive substring
containment. -/
def titleMatch (movie_title : String) (m : Movie) : Bool :=
  decide ((pyLower movie_title).toList <:+: (pyLower m.title).toList)

/-- The not-found JSON message of `find_movie_in_city`. -/
def notFoundMessage (movie_title : String) : String :=
  movie_title ++ (" is not currently showing in India or not found.")

/-- The `find_movie_in_city` tool: scan the now-playing list for the first
title containing the query (case-insensitive); without a match return the
not-found message and never call the theater lookup; with a match call the
theater lookup for the city and list the names of at most 8 theaters. -/
def find_movie_in_city (now_playing : List Movie)
    (theatersIn : String → List Theater)
    (movie_title city : String) : FindCityResult :=
  match now_playing.find? (titleMatch movie_title) with
  | none => .notFound (notFoundMessage movie_title)
  | some movie =>
      let theaters := theatersIn city
      .found
        { movie := movie.title
          release_date := movie.release_date
          overview := String.mk (movie.overview.toList.take 180) ++ ("...")
          city := city
          likely_theaters :=
            if theaters.isEmpty then .noData ("No data found")
            else .names ((theaters.take 8).map Theater.name) }

/-! ### Concrete instances used by witnesses -/

/-- A TMDb fetch whose first page answers with HTTP 500. -/
def failFetch : Nat → TmdbPage := fun _ => { status := 500, results := [], total_pages := 1 }

/-- A small now-playing list for the movie-tool witness. -/
def demoMovies : List Movie :=
  [{ title := "Venom", release_date := "2024-10-25", overview := "symbiote" },
   { title := "Dune: Part Two", release_date := "2024-02-27", overview := "desert" }]

/-- A small theater lookup for the movie-tool witness. -/
def demoTheaters : String → List Theater := fun _ => [{ name := "PVR" }, { name := "INOX" }]

/-! ## Helper lemmas -/

theorem stripCommas_eq_self (cs : List Char) (h : ∀ c ∈ cs, c ≠ ',') :
    stripCommas cs = cs :=
  List.filter_eq_self.2 fun c hc => by simpa using h c hc

theorem stripCommas_group3Aux (fuel : Nat) :
    ∀ cs : List Char, (∀ c ∈ cs, c ≠ ',') →
      stripCommas (group3Aux fuel cs) = cs := by
  induction fuel with
  | zero => intro cs h; exact stripCommas_eq_self cs h
  | succ f ih =>
      intro cs h
      rw [group3Aux]
      by_cases hlen : cs.length ≤ 3
      · rw [if_pos hlen]; exact stripCommas_eq_self cs h
      · rw [if_neg hlen]
        rw [stripCommas, List.filter_append]
        have h1 : List.filter (fun c => c ≠ ',') (cs.take 3) = cs.take 3 :=
          stripCommas_eq_self _ fun c hc => h c (List.mem_of_mem_take hc)
        have h2 : List.filter (fun c => c ≠ ',') (',' :: group3Aux f (cs.drop 3)) =
            stripCommas (group3Aux f (cs.drop 3)) := by
          simp [stripCommas, List.filter_cons]
        rw [h1, h2, ih _ fun c hc => h c (List.mem_of_mem_drop hc)]
        exact List.take_append_drop 3 cs

theorem stripCommas_commaGroup (ds : List Char) (h : ∀ c ∈ ds, c ≠ ',') :
    stripCommas (commaGroup ds) = ds := by
  rw [commaGroup, stripCommas, List.filter_reverse]
  rw [show List.filter (fun c => c ≠ ',') (group3Aux ds.reverse.length ds.reverse) =
        stripCommas (group3Aux ds.reverse.length ds.reverse) from rfl]
  rw [stripCommas_group3Aux _ _ fun c hc => h c (List.mem_reverse.1 hc)]
  exact List.reverse_reverse ds

theorem valRev_digitsRevAux (fuel : Nat) :
    ∀ n : Nat, n ≤ fuel → valRev (digitsRevAux fuel n) = n := by
  induction fuel with
  | zero =>
      intro n hn
      simp only [digitsRevAux, valRev]
      omega
  | succ f ih =>
      intro n hn
      by_cases h0 : n = 0
      · simp [digitsRevAux, h0, valRev]
      · have hlt : n / 10 ≤ f := by
          have : n / 10 < n := Nat.div_lt_self (by omega) (by omega)
          omega
        simp only [digitsRevAux, h0, if_false, valRev, ih _ hlt]
        omega

theorem digitsRevAux_lt_10 (fuel : Nat) :
    ∀ n d : Nat, d ∈ digitsRevAux fuel n → d < 10 := by
  induction fuel with
  | zero => intro n d hd; simp [digitsRevAux] at hd
  | succ f ih =>
      intro n d hd
      by_cases h0 : n = 0
      · simp [digitsRevAux, h0] at hd
      · simp only [digitsRevAux, h0, if_false, List.mem_cons] at hd
        rcases hd with rfl | hd
        · exact Nat.mod_lt _ (by omega)
        · exact ih _ _ hd

theorem charVal_digitChar : ∀ d : Nat, d < 10 → charVal (Nat.digitChar d) = d := by decide

theorem digitChar_ne_comma : ∀ d : Nat, d < 10 → Nat.digitChar d ≠ ',' := by decide

theorem foldr_digitChar_eq_valRev (ds : List Nat) (hb : ∀ d ∈ ds, d < 10) :
    (ds.map Nat.digitChar).foldr (fun c a => 10 * a + charVal c) 0 = valRev ds := by
  induction ds with
  | nil => rfl
  | cons d t ih =>
      simp only [List.map_cons, List.foldr_cons, valRev]
      rw [ih fun x hx => hb x (List.mem_cons_of_mem _ hx),
          charVal_digitChar d (hb d (List.mem_cons_self _ _))]
      omega

theorem charsToNat_digitsStr (n : Nat) : charsToNat (digitsStr n) = n := by
  by_cases h0 : n = 0
  · subst h0; decide
  · rw [digitsStr, if_neg h0, charsToNat, List.foldl_reverse]
    have := foldr_digitChar_eq_valRev (digitsRevAux n n) (fun d hd => digitsRevAux_lt_10 n n d hd)
    simp only [List.foldr] at this ⊢
    rw [show (fun (x : Char) (y : Nat) => 10 * y + charVal x) =
          (fun (c : Char) (a : Nat) => 10 * a + charVal c) from rfl]
    rw [this, valRev_digitsRevAux n n le_rfl]

theorem digitsStr_ne_comma (n : Nat) : ∀ c ∈ digitsStr n, c ≠ ',' := by
  intro c hc
  by_cases h0 : n = 0
  · subst h0; simp [digitsStr] at hc; subst hc; decide
  · rw [digitsStr, if_neg h0] at hc
    rw [List.mem_reverse] at hc
    obtain ⟨d, hd, rfl⟩ := List.mem_map.1 hc
    exact digitChar_ne_comma d (digitsRevAux_lt_10 _ _ _ hd)

theorem parse_back_digits (n : Nat) :
    charsToNat (stripCommas (commaGroup (digitsStr n))) = n := by
  rw [stripCommas_commaGroup _ (digitsStr_ne_comma n), charsToNat_digitsStr]

theorem roundHalfEven_nonneg (q : ℚ) (hq : 0 ≤ q) : 0 ≤ roundHalfEven q := by
  have hfl : (0 : ℤ) ≤ ⌊q⌋ := by
    rw [Int.le_floor]
    exact_mod_cast hq
  unfold roundHalfEven
  dsimp only
  split
  · exact hfl
  · split
    · omega
    · split <;> omega

theorem notMem_collectionNames_delete (store : VectorStore) (name : String) :
    name ∉ collectionNames (delete_collection store name) := by
  simp [collectionNames, delete_collection]

theorem filter_eq_nil_of_notMem (store : VectorStore) (name : String)
    (h : name ∉ collectionNames store) :
    store.filter (fun p => p.1 = name) = [] := by
  rw [List.filter_eq_nil_iff]
  intro p hp
  simp only [decide_eq_true_eq]
  intro heq
  exact h (List.mem_map.2 ⟨p, hp, heq⟩)

theorem entriesOf_append (s t : VectorStore) (name : String) :
    entriesOf (s ++ t) name = entriesOf s name ++ entriesOf t name := by
  simp [entriesOf, List.filter_append]

theorem generationsOf_append (s t : VectorStore) (name : String) :
    generationsOf (s ++ t) name = generationsOf s name + generationsOf t name := by
  simp [generationsOf, List.filter_append]

theorem build_vector_store_fresh (s : VectorStore) (chunks : List String) :
    entriesOf (build_vector_store s chunks) ("Langchain_store") = chunks ∧
    generationsOf (build_vector_store s chunks) ("Langchain_store") = 1 := by
  rw [build_vector_store]
  have hnot : ("Langchain_store") ∉ collectionNames
      (if ("Langchain_store") ∈ collectionNames s then
        delete_collection s ("Langchain_store") else s) := by
    split
    · exact notMem_collectionNames_delete s _
    · assumption
  rw [add_documents, if_neg hnot]
  have hfil := filter_eq_nil_of_notMem _ _ hnot
  constructor
  · rw [entriesOf_append]
    simp [entriesOf, hfil]
  · rw [generationsOf_append]
    simp [generationsOf, hfil]

theorem mem_loadBatch_of_ok (batch : List ReadResult) (d : String)
    (hd : ReadResult.ok d ∈ batch) : d ∈ loadBatch batch := by
  induction batch with
  | nil => cases hd
  | cons x t ih =>
      cases x with
      | ok s =>
          rcases List.mem_cons.1 hd with heq | hmem
          · cases heq; simp [loadBatch]
          · simp [loadBatch, ih hmem]
      | failed e =>
          rcases List.mem_cons.1 hd with heq | hmem
          · cases heq
          · simpa [loadBatch] using ih hmem

theorem foldl_loopStep_success (pairs : List (String × String)) :
    ∀ m : List Message, (∀ p ∈ pairs, isExitInput p.1 = false) →
      (successEvents pairs).foldl loopStep { memory := m, status := .ready } =
        { memory := m ++ memoryOfPairs pairs, status := .ready } := by
  induction pairs with
  | nil => intro m _; simp [successEvents, memoryOfPairs]
  | cons p t ih =>
      intro m h
      have hp : isExitInput p.1 = false := h p (List.mem_cons_self _ _)
      have hstep : loopStep { memory := m, status := .ready }
          { input := p.1, gen := .success p.2 } =
          { memory := m ++ [.human p.1, .ai p.2], status := .ready } := by
        simp [loopStep, hp]
      simp only [successEvents, List.map_cons, List.foldl_cons, hstep]
      rw [show List.map (fun p => ({ input := p.1, gen := .success p.2 } : LoopEvent)) t =
            successEvents t from rfl]
      rw [ih _ fun q hq => h q (List.mem_cons_of_mem _ hq)]
      simp [memoryOfPairs]

theorem memoryOfPairs_length (pairs : List (String × String)) :
    (memoryOfPairs pairs).length = 2 * pairs.length := by
  induction pairs with
  | nil => rfl
  | cons p t ih =>
      simp only [memoryOfPairs, List.flatMap_cons] at ih ⊢
      rw [List.length_append, ih]
      simp only [List.length_cons, List.length_nil, List.length]
      omega

theorem alternatesQA_memoryOfPairs (pairs : List (String × String)) :
    alternatesQA (memoryOfPairs pairs) = true := by
  induction pairs with
  | nil => rfl
  | cons p t ih => simpa [memoryOfPairs, alternatesQA] using ih

/-! ## Claim theorems -/

set_option maxRecDepth 8000 in
/-- C1 (code bug): the multi-turn prompt never contains the memory section.
The chain of `build_rag_chain` renders the chat history, but the
`PromptTemplate` declares only `context` and `question`, so the rendered
history is dropped by `format`.  First conjunct: the assembled prompt is
independent of the memory snapshot.  Remaining conjuncts: concrete failing
session — after the first query and its answer are in memory, the prompt
assembled for the second question contains neither of them, contradicting
the claim that both appear verbatim in a memory section. -/
theorem rag_prompt_omits_memory :
    (∀ retrieved question h1 h2,
        ragChainPrompt retrieved question h1 = ragChainPrompt retrieved question h2) ∧
    (runSession [{ input := "What color is the sky?", gen := .success ("The sky is blue.") }]).memory
        = [.human ("What color is the sky?"), .ai ("The sky is blue.")] ∧
    ¬ (("What color is the sky?").toList <:+:
        (ragChainPrompt ("ctx") ("Why?")
          (runSession [{ input := "What color is the sky?",
                         gen := .success ("The sky is blue.") }]).memory).toList) ∧
    ¬ (("The sky is blue.").toList <:+:
        (ragChainPrompt ("ctx") ("Why?")
          (runSession [{ input := "What color is the sky?",
                         gen := .success ("The sky is blue.") }]).memory).toList) :=
  ⟨fun _ _ _ _ => rfl, by decide, by decide, by decide⟩

/-- C2 counterexample: the index build of `langchain(pinecone).py` does not
delete a pre-existing index with the target name; running the same build
twice on the same source adds the chunks again, so the entries are
duplicated instead of staying identical. -/
theorem pinecone_rebuild_duplicates :
    ("idx") ∈ collectionNames (pinecone_build [] ("idx") [("c0")]) ∧
    entriesOf (pinecone_build (pinecone_build [] ("idx") [("c0")]) ("idx") [("c0")]) ("idx") =
      [("c0"), ("c0")] ∧
    entriesOf (pinecone_build (pinecone_build [] ("idx") [("c0")]) ("idx") [("c0")]) ("idx") ≠
      entriesOf (pinecone_build [] ("idx") [("c0")]) ("idx") := by
  decide

/-- C2 (amended): the Chroma build of `langchainRAG.py` deletes a
pre-existing `Langchain_store` collection before repopulating, so after any
build the collection holds exactly the chunks of the source, there is one
live generation of the name, and rebuilding from the same source leaves the
entries unchanged (no duplicates); the Pinecone build lacks the deletion
and violates this (see the counterexample). -/
theorem chroma_delete_before_rebuild (store : VectorStore) (chunks : List String) :
    entriesOf (build_vector_store store chunks) ("Langchain_store") = chunks ∧
    generationsOf (build_vector_store store chunks) ("Langchain_store") = 1 ∧
    entriesOf (build_vector_store (build_vector_store store chunks) chunks)
        ("Langchain_store") =
      entriesOf (build_vector_store store chunks) ("Langchain_store") := by
  obtain ⟨h1, h2⟩ := build_vector_store_fresh store chunks
  obtain ⟨h3, _⟩ := build_vector_store_fresh (build_vector_store store chunks) chunks
  exact ⟨h1, h2, by rw [h1, h3]⟩

/-- C3 counterexample: a failed generation leaves the memory empty as the
claim says, but the loop does not return to `READY`: the uncaught
exception tears the session down (`crashed`), and a following question is
not processed, so the session is not usable afterwards. -/
theorem failed_generation_crashes_session :
    (runSession [{ input := "q1", gen := .failure }]).memory = [] ∧
    (runSession [{ input := "q1", gen := .failure }]).status ≠ SessionStatus.ready ∧
    runSession [{ input := "q1", gen := .failure },
                { input := "q2", gen := .success ("a2") }] =
      runSession [{ input := "q1", gen := .failure }] := by
  decide

/-- C3 (amended): for every ready session, a query whose generation fails
leaves the Conversation Memory unchanged, but the orchestrator ends up
`crashed` (the exception from `rag_chain.invoke` is never caught), and no
later event changes the session any more. -/
theorem failed_generation_memory_unchanged (st : SessionState) (ev : LoopEvent)
    (hst : st.status = .ready) (hexit : isExitInput ev.input = false)
    (hgen : ev.gen = .failure) :
    (loopStep st ev).memory = st.memory ∧
    (loopStep st ev).status = .crashed ∧
    ∀ ev2 : LoopEvent, loopStep (loopStep st ev) ev2 = loopStep st ev := by
  obtain ⟨mem, stt⟩ := st
  obtain ⟨inp, g⟩ := ev
  simp only [SessionState.status] at hst
  subst hst
  simp only [LoopEvent.gen] at hgen
  subst hgen
  simp only [LoopEvent.input] at hexit
  refine ⟨?_, ?_, ?_⟩
  · simp [loopStep, hexit]
  · simp [loopStep, hexit]
  · intro ev2
    simp [loopStep, hexit]

/-- Witness for C3 at a concrete ready state and failing event. -/
theorem failed_generation_memory_unchanged_witness :
    (loopStep initialSession { input := "what", gen := .failure }).memory = [] ∧
    (loopStep initialSession { input := "what", gen := .failure }).status = .crashed := by
  have h := failed_generation_memory_unchanged initialSession
    { input := "what", gen := .failure } rfl (by decide) rfl
  exact ⟨h.1, h.2.1⟩

/-- C4: in every session whose queries all generate successfully (and none
is an exit command), the loop stays ready and the memory snapshot after the
`N` queries is exactly the `2N` turns in chronological order — for each
query the question then its answer — alternating user/assistant. -/
theorem memory_after_successful_queries (pairs : List (String × String))
    (h : ∀ p ∈ pairs, isExitInput p.1 = false) : MemoryInvariant pairs := by
  have main := foldl_loopStep_success pairs [] h
  have hrun : runSession (successEvents pairs) =
      { memory := memoryOfPairs pairs, status := .ready } := by
    rw [runSession, initialSession, main]
    simp
  refine ⟨by rw [hrun], by rw [hrun], ?_, ?_⟩
  · rw [hrun]
    exact memoryOfPairs_length pairs
  · rw [hrun]
    exact alternatesQA_memoryOfPairs pairs

/-- Witness for C4 at two concrete queries. -/
theorem memory_after_successful_queries_witness :
    MemoryInvariant [("q1", "a1"), ("q2", "a2")] :=
  memory_after_successful_queries _ (by decide)

/-- C6: when neither a truthy existing path nor a non-empty url list is
given, `load_documents` raises (returns) the configuration error, and the
result is this fixed error for every loader, so no loader and hence no
network call is ever consulted. -/
theorem load_documents_config_error (fsExists : String → Bool)
    (pdfLoad txtLoad webLoad : String → List String)
    (path : Option String) (urls : List String)
    (hpath : validLocalPath fsExists path = false) (hurls : urls = []) :
    load_documents fsExists pdfLoad txtLoad webLoad path urls =
      .error ("Provide either a valid local path or URLs list.") := by
  subst hurls
  rw [load_documents]
  rw [show (pyTruthyPath path && fsExists (path.getD (""))) = false from hpath]
  simp

/-- Witness for C6: a path that does not exist and no urls. -/
theorem load_documents_config_error_witness :
    load_documents (fun _ => false) (fun _ => []) (fun _ => []) (fun _ => [])
      (some ("E:\\Test_Docs")) [] =
      .error ("Provide either a valid local path or URLs list.") :=
  load_documents_config_error _ _ _ _ _ _ (by decide) rfl

/-- C7 (spec-modelled): a single unreadable document in an ingestion batch
is skipped and changes nothing else — the batch loads as if the document
were absent — and every readable document of the batch is still loaded. -/
theorem load_batch_skips_failures (xs ys : List ReadResult) (e : String) :
    loadBatch (xs ++ ReadResult.failed e :: ys) = loadBatch (xs ++ ys) ∧
    ∀ d : String, ReadResult.ok d ∈ xs ++ ys → d ∈ loadBatch (xs ++ ys) := by
  constructor
  · induction xs with
    | nil => rfl
    | cons x t ih => cases x <;> simp [loadBatch, ih]
  · intro d hd
    exact mem_loadBatch_of_ok _ _ hd

/-- Witness for C7: a concrete batch with one failing read. -/
theorem load_batch_skips_failures_witness :
    loadBatch ([ReadResult.ok ("a")] ++ ReadResult.failed ("boom") :: [ReadResult.ok ("b")]) =
      loadBatch ([ReadResult.ok ("a")] ++ [ReadResult.ok ("b")]) ∧
    ("b") ∈ loadBatch ([ReadResult.ok ("a")] ++ [ReadResult.ok ("b")]) :=
  ⟨(load_batch_skips_failures [ReadResult.ok ("a")] [ReadResult.ok ("b")] ("boom")).1,
   (load_batch_skips_failures [ReadResult.ok ("a")] [ReadResult.ok ("b")] ("boom")).2
     ("b") (by decide)⟩

/-- C9: the `get_now_playing` tool serializes at most 10 movies for every
TMDb backend; a non-200 first page stops the fetch with nothing gathered
(an empty array, not an error); a non-200 second page returns what page 1
gathered; and the tool output depends only on the first two pages — no
further page is ever fetched. -/
theorem get_now_playing_spec (fetchPage : Nat → TmdbPage) :
    (get_now_playing fetchPage).length ≤ 10 ∧
    ((fetchPage 1).status ≠ 200 → get_now_playing fetchPage = []) ∧
    ((fetchPage 1).status = 200 → (fetchPage 2).status ≠ 200 →
        get_now_playing fetchPage = (fetchPage 1).results.take 10) ∧
    (∀ g : Nat → TmdbPage, g 1 = fetchPage 1 → g 2 = fetchPage 2 →
        get_now_playing g = get_now_playing fetchPage) := by
  refine ⟨List.length_take_le _ _, ?_, ?_, ?_⟩
  · intro h
    simp [get_now_playing, get_now_playing_tmdb, h]
  · intro h1 h2
    by_cases ht : 1 ≥ (fetchPage 1).total_pages <;>
      simp [get_now_playing, get_now_playing_tmdb, h1, h2, ht]
  · intro g hg1 hg2
    simp [get_now_playing, get_now_playing_tmdb, hg1, hg2]

/-- Witness for C9: a backend whose first page fails with HTTP 500. -/
theorem get_now_playing_spec_witness :
    (failFetch 1).status ≠ 200 ∧ get_now_playing failFetch = [] :=
  ⟨by decide, (get_now_playing_spec failFetch).2.1 (by decide)⟩

/-- C10: `find_movie_in_city` matches by case-insensitive substring
containment; when no now-playing title contains the query it returns the
not-found message and its result does not depend on the theater lookup at
all; when the now-playing list splits around a first match, the result is
built from that movie and lists at most 8 theater names (the names of the
first 8 theaters of the city lookup). -/
theorem find_movie_in_city_spec (now_playing : List Movie)
    (theatersIn : String → List Theater) (movie_title city : String) :
    ((∀ m ∈ now_playing, titleMatch movie_title m = false) →
        find_movie_in_city now_playing theatersIn movie_title city =
          .notFound (notFoundMessage movie_title) ∧
        ∀ other : String → List Theater,
          find_movie_in_city now_playing other movie_title city =
            find_movie_in_city now_playing theatersIn movie_title city) ∧
    (∀ pre m post, now_playing = pre ++ m :: post →
        (∀ m2 ∈ pre, titleMatch movie_title m2 = false) →
        titleMatch movie_title m = true →
        ∃ r : FoundMovie,
          find_movie_in_city now_playing theatersIn movie_title city = .found r ∧
          r.movie = m.title ∧
          ∀ names, r.likely_theaters = .names names →
            names.length ≤ 8 ∧ names = ((theatersIn city).take 8).map Theater.name) := by
  constructor
  · intro hnone
    have hfind : now_playing.find? (titleMatch movie_title) = none :=
      List.find?_eq_none.2 fun m hm => by simp [hnone m hm]
    constructor
    · simp [find_movie_in_city, hfind]
    · intro other
      simp [find_movie_in_city, hfind]
  · intro pre m post hsplit hpre hm
    have hfind : now_playing.find? (titleMatch movie_title) = some m := by
      subst hsplit
      rw [List.find?_append]
      have hn : pre.find? (titleMatch movie_title) = none :=
        List.find?_eq_none.2 fun x hx => by simp [hpre x hx]
      rw [hn, Option.none_or]
      exact List.find?_cons_of_pos _ hm
    refine ⟨_, by rw [find_movie_in_city, hfind], rfl, ?_⟩
    intro names hn
    by_cases hth : (theatersIn city).isEmpty
    · simp only [hth, if_true] at hn
      cases hn
    · simp only [hth, if_false] at hn
      cases hn
      exact ⟨by simp, rfl⟩

/-- Witness for C10: the query `dune` against a two-movie now-playing list,
matching the second title case-insensitively. -/
theorem find_movie_in_city_spec_witness :
    ∃ r : FoundMovie,
      find_movie_in_city demoMovies demoTheaters ("dune") ("Pune") = .found r ∧
      r.movie = ("Dune: Part Two") ∧
      ∀ names, r.likely_theaters = .names names →
        names.length ≤ 8 ∧ names = ((demoTheaters ("Pune")).take 8).map Theater.name :=
  (find_movie_in_city_spec demoMovies demoTheaters ("dune") ("Pune")).2
    [{ title := "Venom", release_date := "2024-10-25", overview := "symbiote" }]
    { title := "Dune: Part Two", release_date := "2024-02-27", overview := "desert" } []
    rfl (by decide) (by decide)

theorem chunkAt_length (text : List Char) (max_size p : Nat) :
    (chunkAt text max_size p).length = min max_size (text.length - p) := by
  simp [chunkAt]

theorem numChunks_pos (L max_size step : Nat) : 0 < numChunks L max_size step := by
  rw [numChunks]
  split
  · omega
  · exact Nat.lt_of_lt_of_le Nat.zero_lt_one (Nat.le_add_right 1 _)

theorem coverage_index (L max_size step pos : Nat) (hstep : 0 < step)
    (hsm : step ≤ max_size) (hpos : pos < L) :
    ∃ i < numChunks L max_size step, i * step ≤ pos ∧ pos < i * step + max_size := by
  by_cases hsmall : pos < max_size
  · exact ⟨0, numChunks_pos L max_size step, by omega, by omega⟩
  · push_neg at hsmall
    have hL : max_size < L := lt_of_le_of_lt hsmall hpos
    refine ⟨(pos - max_size) / step + 1, ?_, ?_, ?_⟩
    · rw [numChunks, if_neg (by omega)]
      have h1 : L - max_size + step - 1 = (L - max_size - 1) + step := by omega
      rw [h1, Nat.add_div_right _ hstep]
      have h2 : (pos - max_size) / step ≤ (L - max_size - 1) / step :=
        Nat.div_le_div_right (by omega)
      omega
    · have h3 : (pos - max_size) / step * step ≤ pos - max_size :=
        Nat.div_mul_le_self _ _
      have h4 : ((pos - max_size) / step + 1) * step =
          (pos - max_size) / step * step + step := by ring
      omega
    · have h5 := Nat.div_add_mod (pos - max_size) step
      have h6 : (pos - max_size) % step < step := Nat.mod_lt _ hstep
      have h7 : ((pos - max_size) / step + 1) * step =
          step * ((pos - max_size) / step) + step := by ring
      omega

theorem chunk_full (L max_size step i : Nat) (hstep : 0 < step)
    (hi : i + 1 < numChunks L max_size step) : i * step + max_size < L := by
  rw [numChunks] at hi
  by_cases hL : L ≤ max_size
  · rw [if_pos hL] at hi
    omega
  · rw [if_neg hL] at hi
    push_neg at hL
    have h1 : L - max_size + step - 1 = (L - max_size - 1) + step := by omega
    rw [h1, Nat.add_div_right _ hstep] at hi
    have h2 : i ≤ (L - max_size - 1) / step := by omega
    have h3 : i * step ≤ (L - max_size - 1) / step * step :=
      Nat.mul_le_mul_right _ h2
    have h4 : (L - max_size - 1) / step * step ≤ L - max_size - 1 :=
      Nat.div_mul_le_self _ _
    omega

theorem chunkDocument_length (text : List Char) (max_size overlap : Nat) :
    (chunkDocument text max_size overlap).length =
      numChunks text.length max_size (chunkStep max_size overlap) := by
  simp [chunkDocument]

/-- C5 (spec-modelled): for every document and every
`(max_size, overlap)` with `overlap < max_size`, the chunker covers every
character position, produces no chunk longer than `max_size`, and each
chunk shares exactly `overlap` characters with the next one. -/
theorem chunker_sound (text : List Char) (max_size overlap : Nat)
    (h : overlap < max_size) : ChunkerSound text max_size overlap := by
  have hstep : 0 < chunkStep max_size overlap := by
    rw [chunkStep]
    omega
  have hsm : chunkStep max_size overlap ≤ max_size := by
    rw [chunkStep]
    omega
  refine ⟨?_, ?_, ?_⟩
  · intro pos hpos
    obtain ⟨i, hi, hle, hlt⟩ :=
      coverage_index text.length max_size (chunkStep max_size overlap) pos hstep hsm hpos
    refine ⟨(i * chunkStep max_size overlap,
             chunkAt text max_size (i * chunkStep max_size overlap)), ?_, hle, ?_⟩
    · simp only [chunkDocument, List.mem_map]
      exact ⟨i, List.mem_range.2 hi, rfl⟩
    · rw [chunkAt_length]
      rcases Nat.le_total max_size (text.length - i * chunkStep max_size overlap) with hm | hm
      · rw [Nat.min_eq_left hm]
        omega
      · rw [Nat.min_eq_right hm]
        omega
  · intro pc hpc
    simp only [chunkDocument, List.mem_map] at hpc
    obtain ⟨i, _, rfl⟩ := hpc
    rw [chunkAt_length]
    exact Nat.min_le_left _ _
  · intro i hi
    rw [chunkDocument_length] at hi
    have hfull := chunk_full text.length max_size (chunkStep max_size overlap) i hstep hi
    have e1 : (i + 1) * chunkStep max_size overlap =
        i * chunkStep max_size overlap + chunkStep max_size overlap := by ring
    have e2 : max_size - chunkStep max_size overlap = overlap := by
      rw [chunkStep]
      omega
    constructor
    · rw [chunkAt, chunkAt, List.drop_take, List.drop_drop, e1, e2, List.take_take,
        Nat.min_eq_left (le_of_lt h)]
    · rw [List.length_drop, chunkAt_length]
      have hm : min max_size (text.length - i * chunkStep max_size overlap) = max_size :=
        Nat.min_eq_left (by omega)
      rw [hm, chunkStep]
      omega

/-- Witness for C5: a 25-character document with window 10 and overlap 3. -/
theorem chunker_sound_witness :
    3 < 10 ∧ ChunkerSound (("abcdefghijklmnopqrstuvwxy").toList) 10 3 :=
  ⟨by decide, chunker_sound (("abcdefghijklmnopqrstuvwxy").toList) 10 3 (by decide)⟩

/-- C8: for every price, `btc_to_inr` multiplies by the fixed constant
`83.1` (first conjunct — no dynamic rate anywhere in the tool) and returns
the rupee sign, the comma-grouped two-decimal rendering of the product, and
the literal suffix; the integer and fraction digits printed denote exactly
the product rounded to cents, and removing the thousands separators from
the printed integer part reads back to exactly that integer part. -/
theorem btc_to_inr_format (p : ℚ) (hp : 0 ≤ p) :
    conversion_rate = 831 / 10 ∧ BtcFormatOK p := by
  refine ⟨rfl, ?_⟩
  have hrate : (0 : ℚ) ≤ conversion_rate := by norm_num [conversion_rate]
  have hq : (0 : ℚ) ≤ p * conversion_rate := mul_nonneg hp hrate
  have hq100 : (0 : ℚ) ≤ p * conversion_rate * 100 :=
    mul_nonneg hq (by norm_num)
  have hc : 0 ≤ roundHalfEven (p * conversion_rate * 100) :=
    roundHalfEven_nonneg _ hq100
  refine ⟨(roundHalfEven (p * conversion_rate * 100)).natAbs / 100,
          (roundHalfEven (p * conversion_rate * 100)).natAbs % 100,
          Nat.mod_lt _ (by norm_num), ?_, ?_, parse_back_digits _⟩
  · have habs : ((roundHalfEven (p * conversion_rate * 100)).natAbs : ℤ) =
        roundHalfEven (p * conversion_rate * 100) := Int.natAbs_of_nonneg hc
    have hNat : (roundHalfEven (p * conversion_rate * 100)).natAbs / 100 * 100 +
        (roundHalfEven (p * conversion_rate * 100)).natAbs % 100 =
        (roundHalfEven (p * conversion_rate * 100)).natAbs := by omega
    rw [← habs]
    exact_mod_cast hNat
  · have hsign : ¬ (p * conversion_rate < 0) := not_lt.2 hq
    simp only [btc_to_inr, pyFormatComma2, if_neg hsign]
    congr 1
    have e1 : (roundHalfEven (p * conversion_rate * 100)).natAbs / 10 % 10 =
        (roundHalfEven (p * conversion_rate * 100)).natAbs % 100 / 10 := by omega
    have e2 : (roundHalfEven (p * conversion_rate * 100)).natAbs % 10 =
        (roundHalfEven (p * conversion_rate * 100)).natAbs % 100 % 10 := by omega
    rw [e1, e2]
    simp [List.append_assoc]

/-- Witness for C8 at a concrete price. -/
theorem btc_to_inr_format_witness :
    (0 : ℚ) ≤ 2 ∧ BtcFormatOK 2 :=
  ⟨by norm_num, (btc_to_inr_format 2 (by norm_num)).2⟩
